import Mathlib

/-!
# Shallow embedding of `DVroute.py` (distance-vector router)

This file embeds the routing-table engine of `src/DVroute/DVroute.py`:

* Python `dict`s (which preserve insertion order and have unique keys) are
  modelled as ordered association lists `List (String × α)` with the
  operations `dictGet` / `dictSet` / `dictPop` mirroring `d[k]`, `d[k] = v`
  and `d.pop(k)`.
* The router's mutable attributes (`__rtrTable`, `__neighbor`, `__neighCost`,
  `__rtrTable_history`, `__convergedPrintTimes`, `__PoisonReverse`,
  `__name`, `__MaxHop`) become the fields of `RouterState`.
* Python exceptions that escape a routine (`KeyError` from a failed dict
  lookup / `pop`) are modelled with `Except RouterState RouterState`: the
  error value carries the state at the moment the exception is raised.
* `Router.__updatertrTable`, `Router.__sendRtrTable` (its per-neighbor
  body, `vectorFor`), `Router.__linkChange`, `Router.__linkDown` and
  `Router.__showrt` are translated line by line below.
* The receive loop `Router.__recvRtrTable` is modelled over a list of
  incoming items; its single `except ConnectionError` clause is the only
  caught exception, exactly as in the source.

Costs are Python `int`s, hence `Int` here.
-/

/-- One value of the routing-table dict: `{'nextHop': ..., 'cost': ...}`. -/
structure Route where
  nextHop : String
  cost : Int
deriving DecidableEq

/-- A routing table / received vector: a Python dict `dest ↦ Route`,
modelled as an insertion-ordered association list. -/
abbrev RtrTable := List (String × Route)

/-- Python `d[k]` as a total lookup returning `Option`: first entry whose
key equals `k` (a Python dict has at most one). -/
def dictGet (t : List (String × α)) (k : String) : Option α :=
  match t with
  | [] => none
  | p :: rest => if p.1 = k then some p.2 else dictGet rest k

/-- Python `k in d`. -/
def dictHas (t : List (String × α)) (k : String) : Bool :=
  (dictGet t k).isSome

/-- Python `d[k] = v`: replace the value in place if the key exists
(keeping its position, as Python dicts do), otherwise append. -/
def dictSet (t : List (String × α)) (k : String) (v : α) : List (String × α) :=
  if dictHas t k then t.map (fun p => if p.1 = k then (k, v) else p)
  else t ++ [(k, v)]

/-- Python `d.pop(k)` (the removal part; callers check presence). -/
def dictPop (t : List (String × α)) (k : String) : List (String × α) :=
  t.filter (fun p => p.1 ≠ k)

/-- The router's mutable state (the attributes of class `Router` that the
engine reads or writes; the socket and address book-keeping are I/O). -/
structure RouterState where
  name : String
  MaxHop : Int
  rtrTable : RtrTable
  neighbor : List (String × Int)
  neighCost : List (String × Int)
  rtrTable_history : Option RtrTable
  convergedPrintTimes : Nat
  PoisonReverse : Bool
deriving DecidableEq

/-- One iteration of the `for dest in rtrtable` loop of
`Router.__updatertrTable`, for destination `dest` advertised at cost `adv`
by neighbor `From`.  A `KeyError` from `self.__neighCost[From]` is the
`.error` case (carrying the untouched state, since the lookup precedes
every assignment in that iteration). -/
def updateStep (s : RouterState) (From : String) (dest : String) (adv : Int) :
    Except RouterState RouterState :=
  if dest = s.name then
    .ok s
  else
    match dictGet s.rtrTable dest with
    | none =>
      match dictGet s.neighCost From with
      | none => .error s
      | some nc =>
        .ok { s with
          rtrTable := dictSet s.rtrTable dest ⟨From, min (nc + adv) (s.MaxHop + 1)⟩ }
    | some e =>
      if e.nextHop = From then
        match dictGet s.neighCost From with
        | none => .error s
        | some nc =>
          .ok { s with
            rtrTable := dictSet s.rtrTable dest { e with cost := min (nc + adv) (s.MaxHop + 1) } }
      else
        match dictGet s.neighCost From with
        | none => .error s
        | some nc =>
          if nc + adv < e.cost then
            .ok { s with
              rtrTable := dictSet s.rtrTable dest ⟨From, min (nc + adv) (s.MaxHop + 1)⟩ }
          else
            .ok s

/-- `Router.__updatertrTable(addr, rtrtable)` after the address has been
resolved to the neighbor name `From`: fold `updateStep` over the received
vector in its (dict) order.  Only the `cost` field of each received entry
is read, exactly as in the source. -/
def updatertrTable (s : RouterState) (From : String) : RtrTable → Except RouterState RouterState
  | [] => .ok s
  | p :: rest =>
    match updateStep s From p.1 p.2.cost with
    | .ok s1 => updatertrTable s1 From rest
    | .error s1 => .error s1

/-- The per-entry poisoning of `Router.__sendRtrTable`: an entry for a
destination other than `T` whose best route departs via `T` is advertised
at cost `MaxHop+1`; every other entry is copied verbatim. -/
def poisonEntry (s : RouterState) (T : String) (p : String × Route) : String × Route :=
  if p.1 ≠ T ∧ p.2.nextHop = T then (p.1, { p.2 with cost := s.MaxHop + 1 })
  else p

/-- The body of the `for nextHop in self.__neighbor` loop of
`Router.__sendRtrTable`: the vector prepared for target neighbor `T`
(a deep copy of the table, poisoned per entry when `__PoisonReverse`). -/
def vectorFor (s : RouterState) (T : String) : RtrTable :=
  if s.PoisonReverse then
    s.rtrTable.map (poisonEntry s T)
  else
    s.rtrTable

/-- `Router.__linkChange(addr, dist, needSend)` after address resolution
(the optional notification send is I/O and out of the state model). -/
def linkChange (s : RouterState) (rName : String) (dist : Int) : RouterState :=
  { s with
    neighbor := dictSet s.neighbor rName dist,
    neighCost := dictSet s.neighCost rName dist,
    rtrTable := dictSet s.rtrTable rName ⟨rName, dist⟩,
    convergedPrintTimes := 0,
    rtrTable_history := none }

/-- `Router.__linkDown(addr, needSend)` after address resolution.
`self.__neighbor.pop(rName)` and then `self.__neighCost.pop(rName)` raise
`KeyError` when the key is absent; the `.error` value carries the state at
the raise (after the first pop if only the second fails). -/
def linkDown (s : RouterState) (rName : String) : Except RouterState RouterState :=
  if dictHas s.neighbor rName then
    if dictHas s.neighCost rName then
      .ok { s with
        neighbor := dictPop s.neighbor rName,
        neighCost := dictPop s.neighCost rName,
        rtrTable := dictSet s.rtrTable rName ⟨rName, s.MaxHop + 1⟩,
        convergedPrintTimes := 0,
        rtrTable_history := none }
    else
      .error { s with neighbor := dictPop s.neighbor rName }
  else
    .error s

/-- The clamp performed while printing a row in `Router.__showrt`:
`if cost > MaxHop: cost = MaxHop + 1`. -/
def clampEntry (m : Int) (p : String × Route) : String × Route :=
  if p.2.cost > m then (p.1, { p.2 with cost := m + 1 }) else p

/-- The whole-table effect of the printing loop of `Router.__showrt`. -/
def clampTable (m : Int) (t : RtrTable) : RtrTable :=
  t.map (clampEntry m)

/-- `str(self.__rtrTable) == str(self.__rtrTable_history)`: `str` of a dict
renders its entries in insertion order, so for these tables string equality
is order-sensitive structural equality; `str(None) = 'None'` never equals
the rendering of a dict. -/
def rtrTableEqHistory (s : RouterState) : Bool :=
  match s.rtrTable_history with
  | none => false
  | some h => decide (s.rtrTable = h)

/-- What one invocation of `Router.__showrt` prints. -/
inductive Report where
  | changed
  | convergedNotice
  | silent
deriving DecidableEq

/-- `Router.__showrt()`: the convergence/change detector together with its
side effects (the in-loop clamp mutates the live table; the history
snapshot is a deep copy taken after clamping). -/
def showrt (s : RouterState) : Report × RouterState :=
  if rtrTableEqHistory s = false then
    (.changed,
      { s with
        rtrTable := clampTable s.MaxHop s.rtrTable
        rtrTable_history := some (clampTable s.MaxHop s.rtrTable)
        convergedPrintTimes := 0 })
  else if s.convergedPrintTimes = 0 then
    (.convergedNotice,
      { s with rtrTable := clampTable s.MaxHop s.rtrTable, convergedPrintTimes := 1 })
  else
    (.silent, s)

/-- The payload of one received datagram, after UTF-8 decoding
(`errors='ignore'` makes the decode itself infallible) and after the
first-byte classification of `Router.__recvRtrTable`:
`'*'`-tagged link-change (with `none` when `int(data[1:])` would raise
`ValueError`), `'#'`-tagged link-down, or a vector update (with `none`
when `json.loads(data)` would raise). -/
inductive WireData where
  | changeMsg (dist : Option Int)
  | downMsg
  | vectorMsg (v : Option RtrTable)

/-- One event seen by the receive loop: either `recvfrom` raised a
`ConnectionError` (the only exception the loop catches), or a datagram
arrived from `addr`. -/
inductive RecvItem where
  | transportError
  | dgram (addr : String) (w : WireData)

/-- The Python exceptions that `Router.__recvRtrTable` does NOT catch. -/
inductive UncaughtKind where
  | valueError
  | keyError
  | jsonError
deriving DecidableEq

/-- One iteration of the `while True` loop of `Router.__recvRtrTable`.
`.ok` means the loop continues; `.error` is an uncaught exception escaping
the loop (killing the receiving thread), carrying the state at the raise.
`addr2rName` is the identity table; a sender address missing from it makes
`self.__addr2rName[addr]` raise `KeyError`. -/
def recvOne (addr2rName : List (String × String)) (it : RecvItem) (s : RouterState) :
    Except (UncaughtKind × RouterState) RouterState :=
  match it with
  | .transportError => .ok s
  | .dgram addr w =>
    match w with
    | .changeMsg none => .error (.valueError, s)
    | .changeMsg (some dist) =>
      match dictGet addr2rName addr with
      | none => .error (.keyError, s)
      | some rName => .ok (linkChange s rName dist)
    | .downMsg =>
      match dictGet addr2rName addr with
      | none => .error (.keyError, s)
      | some rName =>
        match linkDown s rName with
        | .ok s1 => .ok s1
        | .error s1 => .error (.keyError, s1)
    | .vectorMsg none => .error (.jsonError, s)
    | .vectorMsg (some v) =>
      match dictGet addr2rName addr with
      | none => .error (.keyError, s)
      | some F =>
        match updatertrTable s F v with
        | .ok s1 => .ok s1
        | .error s1 => .error (.keyError, s1)

/-- The receive loop run over a finite prefix of incoming events: it
processes items in order and stops at the first uncaught exception. -/
def recvLoop (addr2rName : List (String × String)) (s : RouterState) :
    List RecvItem → Except (UncaughtKind × RouterState) RouterState
  | [] => .ok s
  | it :: rest =>
    match recvOne addr2rName it s with
    | .ok s1 => recvLoop addr2rName s1 rest
    | .error e => .error e

/-- The state a Python caller observes after a routine that may raise:
on `.error` the exception propagates but the mutations already made
remain (state is shared and mutable). -/
def runExcept : Except RouterState RouterState → RouterState
  | .ok s => s
  | .error s => s

/-- One engine operation, for stating invariants over operation
sequences: a vector application, a link change (also link-up), a link
down, or one timer tick (`Router.__showrt`). -/
inductive Op where
  | applyVec (From : String) (v : RtrTable)
  | change (rName : String) (dist : Int)
  | down (rName : String)
  | tick

/-- Run one engine operation (keeping whatever state an uncaught
exception leaves behind). -/
def runOp (s : RouterState) : Op → RouterState
  | .applyVec F v => runExcept (updatertrTable s F v)
  | .change rName dist => linkChange s rName dist
  | .down rName => runExcept (linkDown s rName)
  | .tick => (showrt s).2

/-- Run a sequence of engine operations. -/
def runOps (s : RouterState) (ops : List Op) : RouterState :=
  ops.foldl runOp s

/-- The projection the spec's convergence claim speaks about: the table as
triples (destination, next hop, cost). -/
def tripleOf (p : String × Route) : String × String × Int :=
  (p.1, p.2.nextHop, p.2.cost)

/-- Modelled from the spec's words (for comparison with the code's
`rtrTableEqHistory`): equality of the current table and the snapshot *as
sets of (destination, nextHop, cost) triples, ignoring order*. -/
def specSetEqHistory (s : RouterState) : Bool :=
  match s.rtrTable_history with
  | none => false
  | some h =>
    (s.rtrTable.map tripleOf).all (fun x => decide (x ∈ h.map tripleOf)) &&
    (h.map tripleOf).all (fun x => decide (x ∈ s.rtrTable.map tripleOf))

/-- The cost-range invariant of the spec: every stored route cost lies in
`[0, MaxHop+1]`, and every neighbor link cost is non-negative. -/
def costOk (s : RouterState) : Prop :=
  (∀ p ∈ s.rtrTable, 0 ≤ p.2.cost ∧ p.2.cost ≤ s.MaxHop + 1) ∧
  (∀ p ∈ s.neighCost, 0 ≤ p.2)

/-- Well-formed inputs for one operation: advertised costs non-negative,
link-change costs within `[0, MaxHop+1]`. -/
def opOk (m : Int) : Op → Prop
  | .applyVec _ v => ∀ p ∈ v, 0 ≤ p.2.cost
  | .change _ dist => 0 ≤ dist ∧ dist ≤ m + 1
  | .down _ => True
  | .tick => True

/-- The snapshot invariant of the running program: the stored history, when
present, only contains clamped costs (it is only ever written inside
`Router.__showrt`, after the clamping loop, or reset to `None`). -/
def historyOk (s : RouterState) : Prop :=
  ∀ t, s.rtrTable_history = some t → ∀ p ∈ t, p.2.cost ≤ s.MaxHop + 1

/-! ## Concrete fixture states for witnesses and counterexamples -/

/-- Router B with neighbor A at cost 2 and a learned route to C via A. -/
def sW1 : RouterState :=
  { name := "B", MaxHop := 15, rtrTable := [("C", ⟨"A", 5⟩)],
    neighbor := [("A", 2)], neighCost := [("A", 2)],
    rtrTable_history := none, convergedPrintTimes := 0, PoisonReverse := true }

/-- Router A holding a table with poisonable and non-poisonable routes. -/
def sW2 : RouterState :=
  { name := "A", MaxHop := 15,
    rtrTable := [("B", ⟨"B", 2⟩), ("C", ⟨"B", 3⟩), ("D", ⟨"E", 4⟩)],
    neighbor := [("B", 2), ("E", 4)], neighCost := [("B", 2), ("E", 4)],
    rtrTable_history := none, convergedPrintTimes := 0, PoisonReverse := true }

/-- Same topology as `sW2` but with poison reverse disabled. -/
def sW2n : RouterState := { sW2 with PoisonReverse := false }

/-- Router A whose route to C (via D) has drifted above `MaxHop+1`
(reachable through a `linkchange` command with cost 20). -/
def sC3 : RouterState :=
  { name := "A", MaxHop := 15, rtrTable := [("C", ⟨"D", 20⟩)],
    neighbor := [("B", 5)], neighCost := [("B", 5)],
    rtrTable_history := none, convergedPrintTimes := 0, PoisonReverse := true }

/-- Router A with a route to C via D, cheaper alternative about to arrive
from B. -/
def sW3 : RouterState :=
  { name := "A", MaxHop := 15, rtrTable := [("C", ⟨"D", 9⟩)],
    neighbor := [("B", 5)], neighCost := [("B", 5)],
    rtrTable_history := none, convergedPrintTimes := 0, PoisonReverse := true }

/-- Router A with two destinations, one direct neighbor B. -/
def sW4 : RouterState :=
  { name := "A", MaxHop := 15, rtrTable := [("B", ⟨"B", 2⟩), ("C", ⟨"B", 7⟩)],
    neighbor := [("B", 2)], neighCost := [("B", 2)],
    rtrTable_history := none, convergedPrintTimes := 0, PoisonReverse := true }

/-- Identity table for the receive-loop scenarios. -/
def a2r5 : List (String × String) := [("ipA", "A"), ("ipB", "B")]

/-- Router A listening for datagrams in the receive-loop scenarios. -/
def sW5 : RouterState :=
  { name := "A", MaxHop := 15, rtrTable := [("B", ⟨"B", 2⟩)],
    neighbor := [("B", 2)], neighCost := [("B", 2)],
    rtrTable_history := none, convergedPrintTimes := 0, PoisonReverse := true }

/-- A state whose table and snapshot are equal as sets of triples but were
inserted in different orders. -/
def sC6 : RouterState :=
  { name := "A", MaxHop := 15,
    rtrTable := [("B", ⟨"B", 2⟩), ("C", ⟨"B", 3⟩)],
    neighbor := [("B", 2)], neighCost := [("B", 2)],
    rtrTable_history := some [("C", ⟨"B", 3⟩), ("B", ⟨"B", 2⟩)],
    convergedPrintTimes := 1, PoisonReverse := true }

/-- A small healthy state used for the cost-range scenarios. -/
def sC7 : RouterState :=
  { name := "A", MaxHop := 15, rtrTable := [("B", ⟨"B", 2⟩)],
    neighbor := [("B", 2)], neighCost := [("B", 2)],
    rtrTable_history := none, convergedPrintTimes := 0, PoisonReverse := true }

/-- Router A in a converged, quiet state (snapshot equals table). -/
def sW8 : RouterState :=
  { name := "A", MaxHop := 15, rtrTable := [("B", ⟨"B", 2⟩)],
    neighbor := [("B", 2)], neighCost := [("B", 2)],
    rtrTable_history := some [("B", ⟨"B", 2⟩)],
    convergedPrintTimes := 1, PoisonReverse := true }

/-- Router B with a direct route to E, about to hear about itself. -/
def sW9 : RouterState :=
  { name := "B", MaxHop := 15, rtrTable := [("E", ⟨"E", 7⟩)],
    neighbor := [("A", 2)], neighCost := [("A", 2)],
    rtrTable_history := none, convergedPrintTimes := 0, PoisonReverse := true }

/-- Router A with an over-`MaxHop` cost in the live table and no snapshot. -/
def sW10 : RouterState :=
  { name := "A", MaxHop := 15, rtrTable := [("B", ⟨"B", 2⟩), ("C", ⟨"B", 99⟩)],
    neighbor := [("B", 2)], neighCost := [("B", 2)],
    rtrTable_history := none, convergedPrintTimes := 0, PoisonReverse := true }

/-! ## Lemmas about the dictionary model -/

@[simp] theorem dictGet_nil {α : Type} {k : String} :
    dictGet ([] : List (String × α)) k = none := rfl

@[simp] theorem dictGet_cons {α : Type} {p : String × α} {t : List (String × α)}
    {k : String} :
    dictGet (p :: t) k = if p.1 = k then some p.2 else dictGet t k := rfl

theorem dictGet_ne_none_of_has {α : Type} {t : List (String × α)} {k : String}
    (h : dictHas t k = true) : dictGet t k ≠ none := by
  unfold dictHas at h
  intro hn
  rw [hn] at h
  simp at h

theorem dictGet_eq_none_of_not_has {α : Type} {t : List (String × α)} {k : String}
    (h : ¬ dictHas t k = true) : dictGet t k = none := by
  unfold dictHas at h
  cases hg : dictGet t k with
  | none => rfl
  | some v => rw [hg] at h; simp at h

theorem dictGet_map_update_self {α : Type} {t : List (String × α)} {k : String} (v : α)
    (h : dictGet t k ≠ none) :
    dictGet (t.map (fun p => if p.1 = k then (k, v) else p)) k = some v := by
  induction t with
  | nil => simp at h
  | cons p rest ih =>
    by_cases hp : p.1 = k
    · simp [hp]
    · simp [hp] at h
      simp [hp, ih h]

theorem dictGet_map_update_ne {α : Type} {t : List (String × α)} {k k' : String} (v : α)
    (h : k' ≠ k) :
    dictGet (t.map (fun p => if p.1 = k then (k, v) else p)) k' = dictGet t k' := by
  induction t with
  | nil => rfl
  | cons p rest ih =>
    by_cases hp : p.1 = k
    · have hp' : ¬ (p.1 = k') := by rw [hp]; exact fun hh => h hh.symm
      simp [hp, hp', Ne.symm h, ih]
    · by_cases hq : p.1 = k'
      · simp [hp, hq, h]
      · simp [hp, hq, ih]

theorem dictGet_append_single_self {α : Type} {t : List (String × α)} {k : String} (v : α)
    (h : dictGet t k = none) :
    dictGet (t ++ [(k, v)]) k = some v := by
  induction t with
  | nil => simp
  | cons p rest ih =>
    by_cases hp : p.1 = k
    · simp [hp] at h
    · simp [hp] at h
      simp [hp, ih h]

theorem dictGet_append_single_ne {α : Type} {t : List (String × α)} {k k' : String} (v : α)
    (h : k' ≠ k) :
    dictGet (t ++ [(k, v)]) k' = dictGet t k' := by
  induction t with
  | nil => simp [Ne.symm h]
  | cons p rest ih =>
    by_cases hp : p.1 = k'
    · simp [hp]
    · simp [hp, ih]

theorem dictGet_set_self {α : Type} (t : List (String × α)) (k : String) (v : α) :
    dictGet (dictSet t k v) k = some v := by
  unfold dictSet
  by_cases h : dictHas t k = true
  · rw [if_pos h]
    exact dictGet_map_update_self v (dictGet_ne_none_of_has h)
  · rw [if_neg h]
    exact dictGet_append_single_self v (dictGet_eq_none_of_not_has h)

theorem dictGet_set_ne {α : Type} (t : List (String × α)) {k k' : String} (v : α)
    (h : k' ≠ k) :
    dictGet (dictSet t k v) k' = dictGet t k' := by
  unfold dictSet
  by_cases hh : dictHas t k = true
  · rw [if_pos hh]
    exact dictGet_map_update_ne v h
  · rw [if_neg hh]
    exact dictGet_append_single_ne v h

theorem dictGet_pop_self {α : Type} (t : List (String × α)) (k : String) :
    dictGet (dictPop t k) k = none := by
  induction t with
  | nil => rfl
  | cons p rest ih =>
    by_cases hp : p.1 = k
    · simpa [dictPop, List.filter_cons, hp] using ih
    · simpa [dictPop, List.filter_cons, hp] using ih

theorem dictGet_pop_ne {α : Type} (t : List (String × α)) {k k' : String}
    (h : k' ≠ k) :
    dictGet (dictPop t k) k' = dictGet t k' := by
  induction t with
  | nil => rfl
  | cons p rest ih =>
    by_cases hp : p.1 = k
    · have hp' : ¬ (p.1 = k') := by rw [hp]; exact fun hh => h hh.symm
      simpa [dictPop, List.filter_cons, hp, hp', Ne.symm h] using ih
    · by_cases hq : p.1 = k'
      · simp [dictPop, List.filter_cons, hp, hq, h]
      · simpa [dictPop, List.filter_cons, hp, hq] using ih

theorem mem_dictSet {α : Type} {t : List (String × α)} {k : String} {v : α}
    {p : String × α} (h : p ∈ dictSet t k v) : p ∈ t ∨ p = (k, v) := by
  unfold dictSet at h
  by_cases hh : dictHas t k = true
  · rw [if_pos hh] at h
    obtain ⟨q, hq, he⟩ := List.mem_map.1 h
    by_cases hqk : q.1 = k
    · rw [if_pos hqk] at he
      right; exact he.symm
    · rw [if_neg hqk] at he
      left; exact he ▸ hq
  · rw [if_neg hh] at h
    rcases List.mem_append.1 h with h1 | h2
    · left; exact h1
    · right; simpa using h2

theorem mem_dictPop {α : Type} {t : List (String × α)} {k : String}
    {p : String × α} (h : p ∈ dictPop t k) : p ∈ t :=
  (List.mem_filter.1 h).1

/-! ## Lemmas about one update iteration -/

theorem updateStep_ok_fields {s : RouterState} {From dest : String} {adv : Int}
    {s' : RouterState} (h : updateStep s From dest adv = .ok s') :
    s'.name = s.name ∧ s'.MaxHop = s.MaxHop ∧ s'.neighCost = s.neighCost ∧
    s'.neighbor = s.neighbor ∧ s'.rtrTable_history = s.rtrTable_history ∧
    s'.convergedPrintTimes = s.convergedPrintTimes ∧ s'.PoisonReverse = s.PoisonReverse := by
  unfold updateStep at h
  repeat' split at h
  all_goals cases h
  all_goals exact ⟨rfl, rfl, rfl, rfl, rfl, rfl, rfl⟩

theorem updateStep_error_eq {s : RouterState} {From dest : String} {adv : Int}
    {s1 : RouterState} (h : updateStep s From dest adv = .error s1) : s1 = s := by
  unfold updateStep at h
  repeat' split at h
  all_goals cases h
  all_goals rfl

theorem updateStep_frame {s : RouterState} {From dest : String} {adv : Int}
    {s' : RouterState} (h : updateStep s From dest adv = .ok s')
    {k : String} (hk : k ≠ dest) :
    dictGet s'.rtrTable k = dictGet s.rtrTable k := by
  unfold updateStep at h
  repeat' split at h
  all_goals cases h
  all_goals try rfl
  all_goals exact dictGet_set_ne _ _ hk

theorem updateStep_nextHop_eq {s : RouterState} {From dest : String} {adv : Int}
    {e : Route} {nc : Int}
    (hd : dest ≠ s.name) (he : dictGet s.rtrTable dest = some e)
    (hnh : e.nextHop = From) (hnc : dictGet s.neighCost From = some nc) :
    updateStep s From dest adv =
      .ok { s with
        rtrTable := dictSet s.rtrTable dest ⟨e.nextHop, min (nc + adv) (s.MaxHop + 1)⟩ } := by
  simp [updateStep, hd, he, hnh, hnc]

theorem updateStep_other_nextHop {s : RouterState} {From dest : String} {adv : Int}
    {e : Route} {nc : Int}
    (hd : dest ≠ s.name) (he : dictGet s.rtrTable dest = some e)
    (hnh : ¬ e.nextHop = From) (hnc : dictGet s.neighCost From = some nc) :
    updateStep s From dest adv =
      .ok (if nc + adv < e.cost
        then { s with
          rtrTable := dictSet s.rtrTable dest ⟨From, min (nc + adv) (s.MaxHop + 1)⟩ }
        else s) := by
  by_cases hc : nc + adv < e.cost <;>
    simp [updateStep, hd, he, hnh, hnc, hc]

/-! ## Lemmas about a whole vector application -/

theorem updatertrTable_fields {From : String} {v : RtrTable} :
    ∀ {s s' : RouterState}, updatertrTable s From v = .ok s' →
    s'.name = s.name ∧ s'.MaxHop = s.MaxHop ∧ s'.neighCost = s.neighCost ∧
    s'.rtrTable_history = s.rtrTable_history := by
  induction v with
  | nil =>
    intro s s' h
    cases h
    exact ⟨rfl, rfl, rfl, rfl⟩
  | cons p rest ih =>
    intro s s' h
    unfold updatertrTable at h
    cases hstep : updateStep s From p.1 p.2.cost with
    | error s1 => rw [hstep] at h; cases h
    | ok s1 =>
      rw [hstep] at h
      obtain ⟨h1, h2, h3, _, h5, _, _⟩ := updateStep_ok_fields hstep
      obtain ⟨g1, g2, g3, g5⟩ := ih h
      exact ⟨g1.trans h1, g2.trans h2, g3.trans h3, g5.trans h5⟩

theorem updatertrTable_frame {From : String} {v : RtrTable} :
    ∀ {s s' : RouterState}, updatertrTable s From v = .ok s' →
    ∀ {k : String}, (∀ p ∈ v, p.1 ≠ k) →
    dictGet s'.rtrTable k = dictGet s.rtrTable k := by
  induction v with
  | nil =>
    intro s s' h k _
    cases h
    rfl
  | cons p rest ih =>
    intro s s' h k hk
    unfold updatertrTable at h
    cases hstep : updateStep s From p.1 p.2.cost with
    | error s1 => rw [hstep] at h; cases h
    | ok s1 =>
      rw [hstep] at h
      have hpk : k ≠ p.1 := Ne.symm (hk p (List.mem_cons_self p rest))
      have h1 : dictGet s1.rtrTable k = dictGet s.rtrTable k :=
        updateStep_frame hstep hpk
      have h2 : dictGet s'.rtrTable k = dictGet s1.rtrTable k :=
        ih h (fun q hq => hk q (List.mem_cons_of_mem p hq))
      exact h2.trans h1

/-- What a whole vector application leaves at a destination `d` that was
already present with entry `e`: the per-entry Bellman-Ford rule of
`Router.__updatertrTable`, lifted through the loop (the vector is a Python
dict, so its keys are distinct and `d` is processed exactly once). -/
theorem updatertrTable_at_key {From : String} {v : RtrTable} :
    ∀ {s s' : RouterState} {d : String} {r e : Route} {nc : Int},
    (v.map Prod.fst).Nodup → dictGet v d = some r →
    dictGet s.rtrTable d = some e → d ≠ s.name →
    dictGet s.neighCost From = some nc →
    updatertrTable s From v = .ok s' →
    dictGet s'.rtrTable d =
      (if e.nextHop = From then some ⟨e.nextHop, min (nc + r.cost) (s.MaxHop + 1)⟩
       else if nc + r.cost < e.cost then some ⟨From, min (nc + r.cost) (s.MaxHop + 1)⟩
       else some e) := by
  induction v with
  | nil =>
    intro s s' d r e nc _ hv _ _ _ _
    cases hv
  | cons p rest ih =>
    intro s s' d r e nc hnd hv he hd hnc h
    have hndtail : (rest.map Prod.fst).Nodup := (List.nodup_cons.1 hnd).2
    by_cases hpd : p.1 = d
    · have hr : p.2 = r := by
        have := hv
        rw [dictGet_cons, if_pos hpd] at this
        exact Option.some.inj this
      have hdrest : ∀ q ∈ rest, q.1 ≠ d := by
        intro q hq hqd
        have : d ∈ rest.map Prod.fst := hqd ▸ List.mem_map_of_mem Prod.fst hq
        exact (List.nodup_cons.1 hnd).1 (hpd ▸ this)
      unfold updatertrTable at h
      by_cases hnh : e.nextHop = From
      · rw [hpd, updateStep_nextHop_eq hd he hnh hnc] at h
        have hframe := updatertrTable_frame h (k := d) hdrest
        rw [hframe, dictGet_set_self, if_pos hnh, hr]
      · rw [hpd, updateStep_other_nextHop hd he hnh hnc] at h
        by_cases hc : nc + p.2.cost < e.cost
        · rw [if_pos hc] at h
          have hframe := updatertrTable_frame h (k := d) hdrest
          rw [hframe, dictGet_set_self, if_neg hnh, hr] at *
          rw [if_pos (hr ▸ hc)]
        · rw [if_neg hc] at h
          have hframe := updatertrTable_frame h (k := d) hdrest
          rw [hframe, he, if_neg hnh, if_neg (hr ▸ hc)]
    · have hvrest : dictGet rest d = some r := by
        have := hv
        rw [dictGet_cons, if_neg hpd] at this
        exact this
      unfold updatertrTable at h
      cases hstep : updateStep s From p.1 p.2.cost with
      | error s1 => rw [hstep] at h; cases h
      | ok s1 =>
        rw [hstep] at h
        obtain ⟨f1, f2, f3, _, _, _, _⟩ := updateStep_ok_fields hstep
        have he1 : dictGet s1.rtrTable d = some e :=
          (updateStep_frame hstep (Ne.symm hpd)).trans he
        have hd1 : d ≠ s1.name := f1 ▸ hd
        have hnc1 : dictGet s1.neighCost From = some nc := f3 ▸ hnc
        have := ih hndtail hvrest he1 hd1 hnc1 h
        rw [this, f2]

/-! ## Claim theorems -/

/-- C1: applying a vector from current neighbor `From`, every destination
`d` of the vector (other than the local name, which the loop skips first)
whose existing route has `nextHop = From` gets its cost unconditionally
overwritten with `min(neighCost[From] + advertisedCost, MaxHop+1)` — even
when that is larger than the previous cost — and its next hop stays
`From`. -/
theorem C1_same_nexthop_override {s s' : RouterState} {From d : String}
    {v : RtrTable} {r e : Route} {nc : Int}
    (hnd : (v.map Prod.fst).Nodup)
    (hv : dictGet v d = some r)
    (he : dictGet s.rtrTable d = some e)
    (hnh : e.nextHop = From)
    (hd : d ≠ s.name)
    (hnc : dictGet s.neighCost From = some nc)
    (h : updatertrTable s From v = .ok s') :
    dictGet s'.rtrTable d = some ⟨From, min (nc + r.cost) (s.MaxHop + 1)⟩ := by
  rw [updatertrTable_at_key hnd hv he hd hnc h, if_pos hnh, hnh]

/-- C1 witness: router B (neighbor A at cost 2, route C via A at cost 5)
receives `{C: 20}` from A; the cost is overwritten upward to
`min(2+20, 16) = 16` with next hop still A. -/
theorem C1_same_nexthop_override_witness :
    updatertrTable sW1 "A" [("C", ⟨"A", 20⟩)] =
      .ok { sW1 with rtrTable := [("C", ⟨"A", 16⟩)] } ∧
    dictGet ({ sW1 with rtrTable := [("C", ⟨"A", 16⟩)] } : RouterState).rtrTable "C" =
      some ⟨"A", min ((2 : Int) + 20) (sW1.MaxHop + 1)⟩ :=
  ⟨by rfl,
   @C1_same_nexthop_override sW1 { sW1 with rtrTable := [("C", ⟨"A", 16⟩)] }
     "A" "C" [("C", ⟨"A", 20⟩)] ⟨"A", 20⟩ ⟨"A", 5⟩ 2
     (by decide) (by decide) (by decide) (by decide) (by decide) (by decide) (by rfl)⟩

/-- C3 counterexample: router A (neighbor B at cost 5) holds route
`C -> (D, 20)` (a state reachable via a `linkchange` command with cost 20,
which `Router.__linkChange` stores unclamped).  B advertises `{C: 20}`.
The candidate `min(5+20, 16) = 16` is strictly smaller than the existing
cost 20, so the claim requires the entry to be overwritten — but the
source guards with the *uncapped* sum (`5+20 < 20` is false, line 190),
so the table is left completely unchanged. -/
theorem C3_counterexample :
    min ((5 : Int) + 20) (sC3.MaxHop + 1) < 20 ∧
    dictGet sC3.rtrTable "C" = some ⟨"D", 20⟩ ∧
    updatertrTable sC3 "B" [("C", ⟨"D", 20⟩)] = .ok sC3 :=
  ⟨by decide, by decide, by rfl⟩

/-- C3 (amended): for a destination `d` already present with
`nextHop ≠ From`, the entry is overwritten (to
`(From, min(sum, MaxHop+1))`) if and only if the *uncapped* sum
`neighCost[From] + advertisedCost` is strictly smaller than the existing
cost; when every stored cost is at most `MaxHop+1` this coincides with the
claim's `candidate < existingCost` test, but for stored costs above
`MaxHop+1` the candidate may be smaller while the entry is left
unchanged. -/
theorem C3_better_path_amended {s s' : RouterState} {From d : String}
    {v : RtrTable} {r e : Route} {nc : Int}
    (hnd : (v.map Prod.fst).Nodup)
    (hv : dictGet v d = some r)
    (he : dictGet s.rtrTable d = some e)
    (hnh : ¬ e.nextHop = From)
    (hd : d ≠ s.name)
    (hnc : dictGet s.neighCost From = some nc)
    (h : updatertrTable s From v = .ok s') :
    dictGet s'.rtrTable d =
      (if nc + r.cost < e.cost then some ⟨From, min (nc + r.cost) (s.MaxHop + 1)⟩
       else some e) := by
  rw [updatertrTable_at_key hnd hv he hd hnc h, if_neg hnh]

/-- C3 amended witness: router A (neighbor B at cost 5, route C via D at
cost 9) receives `{C: 1}` from B; `5+1 = 6 < 9`, so the entry switches to
`(B, 6)`. -/
theorem C3_better_path_amended_witness :
    updatertrTable sW3 "B" [("C", ⟨"E", 1⟩)] =
      .ok { sW3 with rtrTable := [("C", ⟨"B", 6⟩)] } ∧
    dictGet ({ sW3 with rtrTable := [("C", ⟨"B", 6⟩)] } : RouterState).rtrTable "C" =
      (if (5 : Int) + 1 < 9 then some ⟨"B", min ((5 : Int) + 1) (sW3.MaxHop + 1)⟩
       else some ⟨"D", 9⟩) :=
  ⟨by rfl,
   @C3_better_path_amended sW3 { sW3 with rtrTable := [("C", ⟨"B", 6⟩)] }
     "B" "C" [("C", ⟨"E", 1⟩)] ⟨"E", 1⟩ ⟨"D", 9⟩ 5
     (by decide) (by decide) (by decide) (by decide) (by decide) (by decide) (by rfl)⟩

/-- Helper for the self-route exclusion: a successful vector application
leaves the table lookup at the local name untouched. -/
theorem updatertrTable_self_preserved {From : String} {v : RtrTable} :
    ∀ {s s' : RouterState}, updatertrTable s From v = .ok s' →
    dictGet s'.rtrTable s.name = dictGet s.rtrTable s.name := by
  induction v with
  | nil =>
    intro s s' h
    cases h
    rfl
  | cons p rest ih =>
    intro s s' h
    unfold updatertrTable at h
    by_cases hpn : p.1 = s.name
    · have hstep : updateStep s From p.1 p.2.cost = .ok s := by
        unfold updateStep
        rw [if_pos hpn]
      rw [hstep] at h
      exact ih h
    · cases hstep : updateStep s From p.1 p.2.cost with
      | error s1 => rw [hstep] at h; cases h
      | ok s1 =>
        rw [hstep] at h
        obtain ⟨f1, _, _, _, _, _, _⟩ := updateStep_ok_fields hstep
        have hframe : dictGet s1.rtrTable s.name = dictGet s.rtrTable s.name :=
          updateStep_frame hstep (Ne.symm hpn)
        have hrest := ih h
        rw [f1] at hrest
        exact hrest.trans hframe

/-- C9: applying a received vector never creates or mutates a routing
entry for the local node's own name: the loop skips such a destination
(first conjunct), and the table state for the local name is identical
before and after a successful apply (second conjunct). -/
theorem C9_self_route_exclusion {s s' : RouterState} {From : String} {v : RtrTable}
    (h : updatertrTable s From v = .ok s') :
    (∀ adv : Int, updateStep s From s.name adv = .ok s) ∧
    dictGet s'.rtrTable s.name = dictGet s.rtrTable s.name := by
  constructor
  · intro adv
    unfold updateStep
    rw [if_pos rfl]
  · exact updatertrTable_self_preserved h

/-- C9 witness: router B receives `{B: 1, D: 3}` from A; the entry for B
itself is skipped (D is learned), and the lookup for "B" is unchanged. -/
theorem C9_self_route_exclusion_witness :
    updatertrTable sW9 "A" [("B", ⟨"A", 1⟩), ("D", ⟨"A", 3⟩)] =
      .ok { sW9 with rtrTable := [("E", ⟨"E", 7⟩), ("D", ⟨"A", 5⟩)] } ∧
    dictGet ({ sW9 with
      rtrTable := [("E", ⟨"E", 7⟩), ("D", ⟨"A", 5⟩)] } : RouterState).rtrTable sW9.name =
      dictGet sW9.rtrTable sW9.name :=
  ⟨by rfl,
   (@C9_self_route_exclusion sW9
     { sW9 with rtrTable := [("E", ⟨"E", 7⟩), ("D", ⟨"A", 5⟩)] }
     "A" [("B", ⟨"A", 1⟩), ("D", ⟨"A", 3⟩)] (by rfl)).2⟩

/-- Lookup through a key-preserving map rewrites the found value. -/
theorem dictGet_map_keypres {α : Type} {f : (String × α) → (String × α)}
    (hf : ∀ p, (f p).1 = p.1) (t : List (String × α)) (k : String) :
    dictGet (t.map f) k = Option.map (fun e => (f (k, e)).2) (dictGet t k) := by
  induction t with
  | nil => rfl
  | cons p rest ih =>
    by_cases hp : p.1 = k
    · have hfp : (f p).1 = k := (hf p).trans hp
      have hpeq : (k, p.2) = p := by
        cases p
        simp only at hp
        rw [hp]
      simp only [List.map_cons, dictGet_cons, hfp, hp, if_pos, Option.map_some']
      rw [hpeq]
    · have hfp : ¬ (f p).1 = k := by rw [hf p]; exact hp
      simp only [List.map_cons, dictGet_cons, if_neg hp, if_neg hfp]
      exact ih

/-- Poisoning never changes an entry's key. -/
theorem poisonEntry_fst (s : RouterState) (T : String) (p : String × Route) :
    (poisonEntry s T p).1 = p.1 := by
  unfold poisonEntry
  by_cases hc : p.1 ≠ T ∧ p.2.nextHop = T <;> simp [hc]

/-- C2: the vector built for neighbor `T` when poison reverse is enabled
advertises cost `MaxHop+1` for every destination `d ≠ T` routed via `T`,
advertises `T` itself (and every destination not routed via `T`) at its
true stored entry; with poison reverse disabled the vector is the table
verbatim. -/
theorem C2_poison_reverse (s : RouterState) (T : String) :
    (s.PoisonReverse = true → ∀ d e, dictGet s.rtrTable d = some e →
      dictGet (vectorFor s T) d =
        some (if d ≠ T ∧ e.nextHop = T then { e with cost := s.MaxHop + 1 } else e)) ∧
    (s.PoisonReverse = false → vectorFor s T = s.rtrTable) := by
  constructor
  · intro hpr d e he
    have hv : vectorFor s T = s.rtrTable.map (poisonEntry s T) := by
      unfold vectorFor
      rw [hpr]
      simp
    rw [hv, dictGet_map_keypres (poisonEntry_fst s T) s.rtrTable d, he]
    simp only [Option.map_some']
    by_cases hc : d ≠ T ∧ e.nextHop = T <;> simp [poisonEntry, hc]
  · intro hpr
    unfold vectorFor
    rw [hpr]
    simp

/-- C2 witness: in `sW2` (A with routes B→B, C→B, D→E) the vector for B
poisons C (cost 16), leaves B itself truthful (cost 2) and D unchanged;
with poison reverse off (`sW2n`) the vector is the table itself. -/
theorem C2_poison_reverse_witness :
    dictGet (vectorFor sW2 "B") "C" =
      some (if "C" ≠ "B" ∧ (Route.mk "B" 3).nextHop = "B"
        then { Route.mk "B" 3 with cost := sW2.MaxHop + 1 } else Route.mk "B" 3) ∧
    dictGet (vectorFor sW2 "B") "B" =
      some (if "B" ≠ "B" ∧ (Route.mk "B" 2).nextHop = "B"
        then { Route.mk "B" 2 with cost := sW2.MaxHop + 1 } else Route.mk "B" 2) ∧
    dictGet (vectorFor sW2 "B") "D" =
      some (if "D" ≠ "B" ∧ (Route.mk "E" 4).nextHop = "B"
        then { Route.mk "E" 4 with cost := sW2.MaxHop + 1 } else Route.mk "E" 4) ∧
    vectorFor sW2n "B" = sW2n.rtrTable :=
  ⟨(C2_poison_reverse sW2 "B").1 rfl "C" ⟨"B", 3⟩ (by decide),
   (C2_poison_reverse sW2 "B").1 rfl "B" ⟨"B", 2⟩ (by decide),
   (C2_poison_reverse sW2 "B").1 rfl "D" ⟨"E", 4⟩ (by decide),
   (C2_poison_reverse sW2n "B").2 rfl⟩

/-- C4: for a current neighbor `P` (both pops succeed, which is what
`.ok` encodes), `linkDown` removes the neighbor-cost entry for `P`, leaves
a routing entry for `P` with next hop `P` and cost `MaxHop+1`, and keeps
every other destination's routing entry unchanged. -/
theorem C4_linkdown_stub {s s' : RouterState} {P : String}
    (h : linkDown s P = .ok s') :
    dictGet s'.neighCost P = none ∧
    dictGet s'.rtrTable P = some ⟨P, s.MaxHop + 1⟩ ∧
    (∀ d, d ≠ P → dictGet s'.rtrTable d = dictGet s.rtrTable d) := by
  unfold linkDown at h
  split at h
  · split at h
    · cases h
      refine ⟨dictGet_pop_self _ _, dictGet_set_self _ _ _, ?_⟩
      intro d hd
      exact dictGet_set_ne _ _ hd
    · cases h
  · cases h

/-- C4 witness: in `sW4`, `linkDown "B"` leaves the stub entry
`B -> (B, 16)`, removes B's neighbor cost, and keeps the entry for C. -/
theorem C4_linkdown_stub_witness :
    linkDown sW4 "B" = .ok
      { sW4 with
        neighbor := []
        neighCost := []
        rtrTable := [("B", ⟨"B", 16⟩), ("C", ⟨"B", 7⟩)]
        convergedPrintTimes := 0
        rtrTable_history := none } ∧
    dictGet ({ sW4 with
        neighbor := []
        neighCost := []
        rtrTable := [("B", ⟨"B", 16⟩), ("C", ⟨"B", 7⟩)]
        convergedPrintTimes := 0
        rtrTable_history := none } : RouterState).rtrTable "B" =
      some ⟨"B", sW4.MaxHop + 1⟩ :=
  ⟨by rfl,
   (@C4_linkdown_stub sW4
     { sW4 with
       neighbor := []
       neighCost := []
       rtrTable := [("B", ⟨"B", 16⟩), ("C", ⟨"B", 7⟩)]
       convergedPrintTimes := 0
       rtrTable_history := none }
     "B" (by rfl)).2.1⟩

/-- C8: `linkChange` (link-up/cost-change) and a successful `linkDown`
both reset the snapshot to `None`, so the very next `showrt` necessarily
takes the changed branch and re-emits the table, even when the new table
is value-equal to the last reported snapshot. -/
theorem C8_link_events_force_changed (s : RouterState) (rName : String) (dist : Int) :
    ((linkChange s rName dist).rtrTable_history = none ∧
      (showrt (linkChange s rName dist)).1 = .changed) ∧
    (∀ s', linkDown s rName = .ok s' →
      s'.rtrTable_history = none ∧ (showrt s').1 = .changed) := by
  constructor
  · exact ⟨rfl, rfl⟩
  · intro s' h
    unfold linkDown at h
    split at h
    · split at h
      · cases h
        exact ⟨rfl, rfl⟩
      · cases h
    · cases h

/-- C8 witness: in the quiet converged state `sW8` (where a plain tick
would report nothing), a cost change on B — leaving the very same table
value — still forces the next tick to report `changed`; likewise after
`linkDown "B"`. -/
theorem C8_link_events_force_changed_witness :
    (showrt (linkChange sW8 "B" 2)).1 = .changed ∧
    linkDown sW8 "B" = .ok
      { sW8 with
        neighbor := []
        neighCost := []
        rtrTable := [("B", ⟨"B", 16⟩)]
        convergedPrintTimes := 0
        rtrTable_history := none } ∧
    (showrt ({ sW8 with
        neighbor := []
        neighCost := []
        rtrTable := [("B", ⟨"B", 16⟩)]
        convergedPrintTimes := 0
        rtrTable_history := none } : RouterState)).1 = .changed ∧
    (showrt sW8).1 = .silent :=
  ⟨(C8_link_events_force_changed sW8 "B" 2).1.2,
   by rfl,
   ((C8_link_events_force_changed sW8 "B" 2).2 _ (by rfl)).2,
   by rfl⟩

/-- C6 counterexample: `sC6`'s table and snapshot are equal as *sets* of
(destination, nextHop, cost) triples — they differ only in insertion
order — yet the detector (string equality of the ordered dict rendering,
line 90) reports `changed`, not stable.  The claim's "regardless of the
order in which entries were inserted" is false of the code. -/
theorem C6_counterexample :
    specSetEqHistory sC6 = true ∧ (showrt sC6).1 = .changed :=
  ⟨by decide, by rfl⟩

/-- C6 (amended): `showrt` reports a non-changed (stable) outcome iff the
snapshot exists and equals the current table as an *ordered sequence* of
entries (Python's `str` of a dict is insertion-order sensitive); set
equality of the triples is not sufficient. -/
theorem C6_stable_iff_ordered_eq (s : RouterState) :
    (showrt s).1 ≠ Report.changed ↔ s.rtrTable_history = some s.rtrTable := by
  unfold showrt rtrTableEqHistory
  cases h : s.rtrTable_history with
  | none => simp
  | some hist =>
    by_cases he : s.rtrTable = hist
    · subst he
      by_cases hc : s.convergedPrintTimes = 0 <;> simp [hc]
    · have hne : ¬ hist = s.rtrTable := fun hh => he hh.symm
      simp [he, hne]

/-- C5 counterexample: the receive loop of the source catches only
`ConnectionError` (line 140).  A datagram whose payload fails to decode
(`json.loads` raising) is NOT discarded-and-continued: the exception
escapes the loop.  Concretely, on a malformed datagram followed by a
well-formed vector from a known neighbor, the loop stops at the malformed
one with an uncaught decode error (tables unmutated — the error value
carries the untouched state `sW5`) and the second datagram — which on its
own would have been applied, third conjunct — is never processed. -/
theorem C5_counterexample :
    recvLoop a2r5 sW5
      [.dgram "ipB" (.vectorMsg none),
       .dgram "ipB" (.vectorMsg (some [("C", ⟨"B", 3⟩)]))] =
      .error (.jsonError, sW5) ∧
    recvLoop a2r5 sW5 [.dgram "ipB" (.vectorMsg (some [("C", ⟨"B", 3⟩)]))] =
      .ok { sW5 with rtrTable := [("B", ⟨"B", 2⟩), ("C", ⟨"B", 5⟩)] } ∧
    recvLoop a2r5 sW5 [.dgram "ipX" (.vectorMsg (some [("C", ⟨"B", 3⟩)]))] =
      .error (.keyError, sW5) :=
  ⟨by rfl, by rfl, by rfl⟩

/-- C5 (amended): only transport `ConnectionError`s are caught (reported,
loop continues).  A payload failing to decode, or a vector whose sender
address is not in the identity table, raises an uncaught exception with no
table or neighbor-cost mutation (the error carries the input state
unchanged) — but the receive loop then terminates at that datagram instead
of continuing with subsequent ones. -/
theorem C5_uncaught_errors_amended (a2r : List (String × String)) (s : RouterState)
    (addr : String) (v : RtrTable) (rest : List RecvItem) :
    recvOne a2r .transportError s = .ok s ∧
    recvOne a2r (.dgram addr (.vectorMsg none)) s = .error (.jsonError, s) ∧
    (dictGet a2r addr = none →
      recvOne a2r (.dgram addr (.vectorMsg (some v))) s = .error (.keyError, s)) ∧
    recvLoop a2r s (.dgram addr (.vectorMsg none) :: rest) = .error (.jsonError, s) := by
  refine ⟨rfl, rfl, ?_, rfl⟩
  intro h
  simp only [recvOne, h]

/-- C5 amended witness: instantiated on `sW5` with an unknown sender
address and a trailing well-formed datagram. -/
theorem C5_uncaught_errors_amended_witness :
    dictGet a2r5 "ipX" = none ∧
    recvOne a2r5 (.dgram "ipX" (.vectorMsg (some [("C", ⟨"B", 3⟩)]))) sW5 =
      .error (.keyError, sW5) ∧
    recvLoop a2r5 sW5
      [.dgram "ipA" (.vectorMsg none), .dgram "ipB" .downMsg] =
      .error (.jsonError, sW5) :=
  ⟨by rfl,
   (C5_uncaught_errors_amended a2r5 sW5 "ipX" [("C", ⟨"B", 3⟩)]
     [.dgram "ipB" .downMsg]).2.2.1 (by rfl),
   (C5_uncaught_errors_amended a2r5 sW5 "ipA" [("C", ⟨"B", 3⟩)]
     [.dgram "ipB" .downMsg]).2.2.2⟩

/-- Every entry of a clamped table has cost at most `m+1`. -/
theorem clampTable_cost_le (m : Int) (t : RtrTable) :
    ∀ p ∈ clampTable m t, p.2.cost ≤ m + 1 := by
  intro p hp
  obtain ⟨q, hq, he⟩ := List.mem_map.1 hp
  rw [← he]
  unfold clampEntry
  by_cases hc : q.2.cost > m
  · simp [hc]
  · simp only [hc, if_neg, if_false]
    omega

/-- Clamping is the identity on a table whose costs are all at most
`m+1` (an entry at exactly `m+1` is rewritten to itself). -/
theorem clampTable_eq_self {m : Int} :
    ∀ {t : RtrTable}, (∀ p ∈ t, p.2.cost ≤ m + 1) → clampTable m t = t := by
  intro t
  induction t with
  | nil => intro _; rfl
  | cons p rest ih =>
    intro h
    have hp : clampEntry m p = p := by
      by_cases hc : p.2.cost > m
      · have hle := h p (List.mem_cons_self p rest)
        have heq : p.2.cost = m + 1 := by omega
        unfold clampEntry
        rw [if_pos hc]
        cases p with
        | mk k r =>
          cases r with
          | mk nh c =>
            simp only at heq
            simp only [heq]
      · unfold clampEntry
        rw [if_neg hc]
    unfold clampTable
    simp only [List.map_cons]
    rw [hp]
    have hrest := ih (fun q hq => h q (List.mem_cons_of_mem p hq))
    unfold clampTable at hrest
    rw [hrest]

/-- `linkChange` resets the snapshot, so the snapshot invariant holds
trivially afterwards. -/
theorem historyOk_linkChange (s : RouterState) (rName : String) (dist : Int) :
    historyOk (linkChange s rName dist) :=
  fun _ ht => nomatch ht

/-- A successful `linkDown` resets the snapshot. -/
theorem historyOk_linkDown {s s' : RouterState} {P : String}
    (h : linkDown s P = .ok s') : historyOk s' := by
  unfold linkDown at h
  split at h
  · split at h
    · cases h
      exact fun _ ht => nomatch ht
    · cases h
  · cases h

/-- A vector application touches neither the snapshot nor `MaxHop`. -/
theorem historyOk_updatertrTable {From : String} {v : RtrTable}
    {s s' : RouterState} (h : updatertrTable s From v = .ok s')
    (hh : historyOk s) : historyOk s' := by
  obtain ⟨_, f2, _, f4⟩ := updatertrTable_fields h
  intro t ht p hp
  rw [f2]
  exact hh t (f4 ▸ ht) p hp

/-- C10: `Router.__showrt` is not read-only.  Under the snapshot invariant
(which holds in every reachable state: the history starts as `None`, both
link events reset it to `None`, vector application does not touch it, and
`showrt` itself only stores clamped snapshots), one report leaves the live
table exactly clamped — every destination whose stored cost exceeds
`MaxHop` is overwritten with `MaxHop+1` and every other entry is
unchanged — so afterwards every stored cost is at most `MaxHop+1`, and the
snapshot afterwards contains only clamped costs. -/
theorem C10_report_clamps_live_table (s : RouterState) (hh : historyOk s) :
    (showrt s).2.rtrTable = clampTable s.MaxHop s.rtrTable ∧
    (∀ p ∈ (showrt s).2.rtrTable, p.2.cost ≤ s.MaxHop + 1) ∧
    historyOk (showrt s).2 := by
  unfold showrt
  by_cases hch : rtrTableEqHistory s = false
  · rw [if_pos hch]
    refine ⟨rfl, clampTable_cost_le _ _, ?_⟩
    intro t ht p hp
    simp only at ht
    have hte : t = clampTable s.MaxHop s.rtrTable := (Option.some.inj ht).symm
    subst hte
    simp only
    exact clampTable_cost_le _ _ p hp
  · have htr : rtrTableEqHistory s = true := by
      revert hch
      cases rtrTableEqHistory s <;> simp
    rw [if_neg hch]
    unfold rtrTableEqHistory at htr
    cases hhis : s.rtrTable_history with
    | none => rw [hhis] at htr; cases htr
    | some hist =>
      rw [hhis] at htr
      have heq : s.rtrTable = hist := of_decide_eq_true htr
      have hclamped : ∀ p ∈ s.rtrTable, p.2.cost ≤ s.MaxHop + 1 := by
        rw [heq]
        exact hh hist hhis
      have hfix := clampTable_eq_self hclamped
      by_cases hc : s.convergedPrintTimes = 0
      · rw [if_pos hc]
        refine ⟨rfl, clampTable_cost_le _ _, ?_⟩
        intro t ht p hp
        simp only at ht
        have hte : hist = t := Option.some.inj ht
        subst hte
        exact hh hist hhis p hp
      · rw [if_neg hc]
        exact ⟨hfix.symm, hclamped, hh⟩

/-- C10 witness: in `sW10` (live cost 99 for C, no snapshot) one report
mutates the live table, clamping C's cost to 16. -/
theorem C10_report_clamps_live_table_witness :
    (showrt sW10).2.rtrTable = clampTable sW10.MaxHop sW10.rtrTable ∧
    (showrt sW10).2.rtrTable = [("B", ⟨"B", 2⟩), ("C", ⟨"B", 16⟩)] :=
  ⟨(C10_report_clamps_live_table sW10 (fun _ ht => nomatch ht)).1,
   by rfl⟩

/-! ## Cost-range invariant machinery (C7) -/

/-- A successful lookup exhibits a member of the association list. -/
theorem dictGet_mem {α : Type} {t : List (String × α)} {k : String} {v : α}
    (h : dictGet t k = some v) : (k, v) ∈ t := by
  induction t with
  | nil => cases h
  | cons p rest ih =>
    by_cases hp : p.1 = k
    · rw [dictGet_cons, if_pos hp] at h
      have hv : p.2 = v := Option.some.inj h
      have hpe : p = (k, v) := by
        cases p
        simp only at hp hv
        rw [hp, hv]
      rw [← hpe]
      exact List.mem_cons_self p rest
    · rw [dictGet_cons, if_neg hp] at h
      exact List.mem_cons_of_mem p (ih h)

/-- Writing a capped candidate `min (nc + adv) (MaxHop + 1)` preserves the
cost-range invariant when `nc` and `adv` are non-negative. -/
theorem costOk_set_min {s : RouterState} {dest nh : String} {nc adv : Int}
    (h0 : 0 ≤ s.MaxHop) (hs : costOk s) (hnc0 : 0 ≤ nc) (hadv : 0 ≤ adv) :
    costOk { s with
      rtrTable := dictSet s.rtrTable dest ⟨nh, min (nc + adv) (s.MaxHop + 1)⟩ } := by
  constructor
  · intro p hp
    rcases mem_dictSet hp with hin | heq
    · exact hs.1 p hin
    · rw [heq]
      exact ⟨le_min (by omega) (by omega), min_le_right _ _⟩
  · exact hs.2

/-- The self-skip branch of one update iteration. -/
theorem updateStep_self {s : RouterState} {From dest : String} {adv : Int}
    (hd : dest = s.name) : updateStep s From dest adv = .ok s := by
  unfold updateStep
  rw [if_pos hd]

/-- The new-destination branch of one update iteration. -/
theorem updateStep_new {s : RouterState} {From dest : String} {adv : Int} {nc : Int}
    (hd : dest ≠ s.name) (he : dictGet s.rtrTable dest = none)
    (hnc : dictGet s.neighCost From = some nc) :
    updateStep s From dest adv =
      .ok { s with
        rtrTable := dictSet s.rtrTable dest ⟨From, min (nc + adv) (s.MaxHop + 1)⟩ } := by
  simp [updateStep, hd, he, hnc]

/-- The `KeyError` branch of one update iteration: `From` has no neighbor
cost. -/
theorem updateStep_nc_missing {s : RouterState} {From dest : String} {adv : Int}
    (hd : dest ≠ s.name) (hnc : dictGet s.neighCost From = none) :
    updateStep s From dest adv = .error s := by
  simp only [updateStep, if_neg hd]
  cases he : dictGet s.rtrTable dest with
  | none => simp [hnc]
  | some e => by_cases hnh : e.nextHop = From <;> simp [hnh, hnc]

/-- One update iteration preserves the cost-range invariant for
non-negative advertised costs. -/
theorem updateStep_costOk {s : RouterState} {From dest : String} {adv : Int}
    {s' : RouterState} (h : updateStep s From dest adv = .ok s')
    (h0 : 0 ≤ s.MaxHop) (hs : costOk s) (hadv : 0 ≤ adv) :
    costOk s' := by
  by_cases hd : dest = s.name
  · rw [updateStep_self hd] at h
    cases h
    exact hs
  · cases hnc : dictGet s.neighCost From with
    | none =>
      rw [updateStep_nc_missing hd hnc] at h
      cases h
    | some nc =>
      have hnc0 : 0 ≤ nc := hs.2 (From, nc) (dictGet_mem hnc)
      cases he : dictGet s.rtrTable dest with
      | none =>
        rw [updateStep_new hd he hnc] at h
        cases h
        exact costOk_set_min h0 hs hnc0 hadv
      | some e =>
        by_cases hnh : e.nextHop = From
        · rw [updateStep_nextHop_eq hd he hnh hnc] at h
          cases h
          exact costOk_set_min h0 hs hnc0 hadv
        · rw [updateStep_other_nextHop hd he hnh hnc] at h
          by_cases hlt : nc + adv < e.cost
          · rw [if_pos hlt] at h
            cases h
            exact costOk_set_min h0 hs hnc0 hadv
          · rw [if_neg hlt] at h
            cases h
            exact hs

/-- A whole vector application (even one aborted by a `KeyError` halfway)
preserves the cost-range invariant and `MaxHop`. -/
theorem updatertrTable_costOk {From : String} {v : RtrTable} :
    ∀ (s : RouterState), 0 ≤ s.MaxHop → costOk s → (∀ p ∈ v, 0 ≤ p.2.cost) →
    costOk (runExcept (updatertrTable s From v)) ∧
    (runExcept (updatertrTable s From v)).MaxHop = s.MaxHop := by
  induction v with
  | nil =>
    intro s _ hs _
    exact ⟨hs, rfl⟩
  | cons p rest ih =>
    intro s h0 hs hv
    unfold updatertrTable
    cases hstep : updateStep s From p.1 p.2.cost with
    | error s1 =>
      simp only [runExcept]
      rw [updateStep_error_eq hstep]
      exact ⟨hs, rfl⟩
    | ok s1 =>
      have hs1 : costOk s1 :=
        updateStep_costOk hstep h0 hs (hv p (List.mem_cons_self p rest))
      have hm1 : s1.MaxHop = s.MaxHop := (updateStep_ok_fields hstep).2.1
      have hrest := ih s1 (hm1 ▸ h0) hs1 (fun q hq => hv q (List.mem_cons_of_mem p hq))
      exact ⟨hrest.1, hrest.2.trans hm1⟩

/-- `linkChange` with an in-range cost preserves the invariant. -/
theorem costOk_linkChange {s : RouterState} {rName : String} {dist : Int}
    (hs : costOk s) (hd : 0 ≤ dist ∧ dist ≤ s.MaxHop + 1) :
    costOk (linkChange s rName dist) := by
  constructor
  · intro p hp
    rcases mem_dictSet hp with hin | heq
    · exact hs.1 p hin
    · rw [heq]
      exact hd
  · intro p hp
    rcases mem_dictSet hp with hin | heq
    · exact hs.2 p hin
    · rw [heq]
      exact hd.1

/-- `linkDown` (in any of its outcomes) preserves the invariant. -/
theorem costOk_linkDown {s : RouterState} {P : String}
    (h0 : 0 ≤ s.MaxHop) (hs : costOk s) :
    costOk (runExcept (linkDown s P)) := by
  unfold linkDown
  split
  · split
    · simp only [runExcept]
      constructor
      · intro p hp
        rcases mem_dictSet hp with hin | heq
        · exact hs.1 p hin
        · rw [heq]
          constructor
          · show (0 : Int) ≤ s.MaxHop + 1
            omega
          · show s.MaxHop + 1 ≤ s.MaxHop + 1
            exact le_refl _
      · intro p hp
        exact hs.2 p (mem_dictPop hp)
    · simp only [runExcept]
      exact hs
  · simp only [runExcept]
    exact hs

/-- `linkDown` never changes `MaxHop`. -/
theorem linkDown_run_MaxHop (s : RouterState) (P : String) :
    (runExcept (linkDown s P)).MaxHop = s.MaxHop := by
  unfold linkDown
  split
  · split <;> rfl
  · rfl

/-- Both bounds survive clamping. -/
theorem clampTable_cost_bounds {m : Int} {t : RtrTable} (h0 : 0 ≤ m)
    (ht : ∀ p ∈ t, 0 ≤ p.2.cost) :
    ∀ p ∈ clampTable m t, 0 ≤ p.2.cost ∧ p.2.cost ≤ m + 1 := by
  intro p hp
  obtain ⟨q, hq, he⟩ := List.mem_map.1 hp
  rw [← he]
  unfold clampEntry
  by_cases hc : q.2.cost > m
  · simp only [if_pos hc]
    exact ⟨by omega, by omega⟩
  · simp only [if_neg hc]
    exact ⟨ht q hq, by omega⟩

/-- One report tick preserves the invariant. -/
theorem costOk_showrt {s : RouterState} (h0 : 0 ≤ s.MaxHop) (hs : costOk s) :
    costOk (showrt s).2 := by
  unfold showrt
  split
  · exact ⟨clampTable_cost_bounds h0 (fun p hp => (hs.1 p hp).1), hs.2⟩
  · split
    · exact ⟨clampTable_cost_bounds h0 (fun p hp => (hs.1 p hp).1), hs.2⟩
    · exact hs

/-- One report tick never changes `MaxHop`. -/
theorem showrt_MaxHop (s : RouterState) : (showrt s).2.MaxHop = s.MaxHop := by
  unfold showrt
  split
  · rfl
  · split <;> rfl

/-- One engine operation with well-formed inputs preserves the invariant
and `MaxHop`. -/
theorem runOp_costOk {s : RouterState} {op : Op} (h0 : 0 ≤ s.MaxHop)
    (hs : costOk s) (hop : opOk s.MaxHop op) :
    costOk (runOp s op) ∧ (runOp s op).MaxHop = s.MaxHop := by
  cases op with
  | applyVec F v => exact updatertrTable_costOk s h0 hs hop
  | change rName dist => exact ⟨costOk_linkChange hs hop, rfl⟩
  | down rName => exact ⟨costOk_linkDown h0 hs, linkDown_run_MaxHop s rName⟩
  | tick => exact ⟨costOk_showrt h0 hs, showrt_MaxHop s⟩

/-- The invariant holds along any well-formed operation sequence. -/
theorem runOps_costOk {mh : Int} :
    ∀ (ops : List Op) (s : RouterState), s.MaxHop = mh → 0 ≤ mh → costOk s →
    (∀ op ∈ ops, opOk mh op) → costOk (runOps s ops) := by
  intro ops
  induction ops with
  | nil =>
    intro s _ _ hs _
    exact hs
  | cons op rest ih =>
    intro s hm h0 hs hops
    have hop : opOk s.MaxHop op := by
      rw [hm]
      exact hops op (List.mem_cons_self op rest)
    have h0' : 0 ≤ s.MaxHop := by
      rw [hm]
      exact h0
    have h1 := runOp_costOk h0' hs hop
    have hm1 : (runOp s op).MaxHop = mh := h1.2.trans hm
    have hrest := ih (runOp s op) hm1 h0 h1.1
      (fun o ho => hops o (List.mem_cons_of_mem op ho))
    simpa [runOps, List.foldl_cons] using hrest

/-- C7 counterexample: `Router.__linkChange` stores the supplied cost
without any clamping (line 230), so a single `linkchange` command with
cost 100 (or -3) puts a cost outside `[0, MaxHop+1]` into the routing
table, violating the claimed range invariant. -/
theorem C7_counterexample :
    dictGet (linkChange sC7 "B" 100).rtrTable "B" = some ⟨"B", 100⟩ ∧
    ¬ ((100 : Int) ≤ sC7.MaxHop + 1) ∧
    dictGet (linkChange sC7 "B" (-3)).rtrTable "B" = some ⟨"B", -3⟩ ∧
    ¬ ((0 : Int) ≤ (-3 : Int)) :=
  ⟨by decide, by decide, by decide, by decide⟩

/-- C7 (amended): the engine operations do NOT clamp link-event costs:
`linkChange` stores its cost verbatim, so the `[0, MaxHop+1]` range
invariant fails for arbitrary integer link costs.  It does hold along
every operation sequence whose link-change costs lie in `[0, MaxHop+1]`
and whose received vectors advertise only non-negative costs: vector
applications cap at `MaxHop+1`, `linkDown` writes exactly `MaxHop+1`, and
report ticks only clamp. -/
theorem C7_cost_range_amended (s : RouterState) (ops : List Op)
    (h0 : 0 ≤ s.MaxHop) (hs : costOk s)
    (hops : ∀ op ∈ ops, opOk s.MaxHop op) :
    costOk (runOps s ops) :=
  runOps_costOk ops s rfl h0 hs hops

/-- C7 amended witness: a concrete well-formed run (link up E at 3, learn
D from B, tear down E, one report tick) keeps every cost in `[0, 16]`. -/
theorem C7_cost_range_amended_witness :
    runOps sC7 [.change "E" 3, .applyVec "B" [("D", ⟨"C", 4⟩)], .down "E", .tick] =
      { sC7 with
        neighbor := [("B", 2)]
        neighCost := [("B", 2)]
        rtrTable := [("B", ⟨"B", 2⟩), ("E", ⟨"E", 16⟩), ("D", ⟨"B", 6⟩)]
        rtrTable_history := some [("B", ⟨"B", 2⟩), ("E", ⟨"E", 16⟩), ("D", ⟨"B", 6⟩)]
        convergedPrintTimes := 0 } ∧
    costOk (runOps sC7
      [.change "E" 3, .applyVec "B" [("D", ⟨"C", 4⟩)], .down "E", .tick]) :=
  ⟨by rfl,
   C7_cost_range_amended sC7
     [.change "E" 3, .applyVec "B" [("D", ⟨"C", 4⟩)], .down "E", .tick]
     (by decide) (by exact ⟨by decide, by decide⟩)
     (by
       intro op hop
       simp only [List.mem_cons, List.not_mem_nil, or_false] at hop
       rcases hop with rfl | rfl | rfl | rfl
       · exact ⟨by decide, by decide⟩
       · intro p hp
         simp only [List.mem_cons, List.not_mem_nil, or_false] at hp
         rw [hp]
         decide
       · trivial
       · trivial)⟩
